import Mathlib

/-!
Shallow embedding of `src/wallpaper_looper.py` (WallpaperLooper).

Conventions of the embedding:
* Filesystem paths are `String`s (Python uses `str(Path.resolve())` everywhere
  a path is stored or returned).
* The session-images directory is modelled as a `List DirEntry`, one entry per
  item returned by `SESSION_IMAGES_DIR.iterdir()` / `.glob`, carrying the
  entry's name, resolved path string, suffix (as Python's `Path.suffix`),
  modification time and regular-file flag.
* Effectful code is modelled by explicit event traces (`Event`, `DlEvent`);
  sources of nondeterminism (timestamps via `now_iso`, random signatures and
  filenames, network success/failure, `set_wallpaper` outcomes) are oracles
  passed as function arguments indexed by step number.
* The metadata file's JSON content is abstracted by its deserialized array
  (`List MetadataEntry`); the session file by an optional `Session` record
  whose fields are `Option`s (a missing dict key is `none`).
-/

namespace WallpaperLooper

/-- Filesystem path, as the Python code's resolved path strings. -/
abbrev FsPath := String

/-- Python's `str.lower()` (ASCII case folding suffices for the extensions
and theme names this program lowers), computable by kernel reduction. -/
def strLower (s : String) : String := ⟨s.data.map Char.toLower⟩

/-- Does `s` start with `pre`?  (Python's `glob(f"\x7bt\x7d_*")` filter is a
name-starts-with check.) -/
def strStartsWith (s pre : String) : Bool := pre.data.isPrefixOf s.data

/-- `IMG_EXTS` from the source (line 56). -/
def IMG_EXTS : List String := [".jpg", ".jpeg", ".png", ".bmp", ".gif", ".webp"]

/-- The keys of `ONLINE_QUERIES` (lines 59-62): the recognized themes. -/
def ONLINE_THEMES : List String := ["nature", "graffiti"]

/-- One entry of the session-images directory as seen by `iterdir()`/`glob`. -/
structure DirEntry where
  name : String
  path : FsPath
  suffix : String
  mtime : Nat
  isFile : Bool
deriving DecidableEq

/-- A `download` metadata record (lines 179-185). -/
structure DownloadEntry where
  theme : String
  filepath : FsPath
  source_url : String
  downloaded_at : String
deriving DecidableEq

/-- A `run` metadata record (lines 428-435); `count` is the run counter. -/
structure RunEntry where
  timestamp : String
  image : FsPath
  duration : Nat
  shuffle : Bool
  count : Nat
deriving DecidableEq

/-- A metadata entry, discriminated by its `type` field. -/
inductive MetadataEntry where
  | download (e : DownloadEntry)
  | run (e : RunEntry)
deriving DecidableEq

/-- The `type` field of a metadata entry. -/
def MetadataEntry.type : MetadataEntry → String
  | .download _ => "download"
  | .run _ => "run"

/-- `append_metadata` (lines 72-83): read the whole metadata array, append the
new entry, rewrite the file.  The file content is abstracted by its
deserialized array. -/
def append_metadata (file : List MetadataEntry) (entry : MetadataEntry) :
    List MetadataEntry :=
  let arr := file
  arr ++ [entry]

/-- The persisted session dict (`session.json`).  Every field is optional: a
Python dict may lack any of the keys (e.g. the `{}` fallback in the
interrupt handler at line 443). -/
structure Session where
  mode : Option String
  local_added : Option (List FsPath)
  theme : Option String
  online_count : Option Nat
  online_refresh : Option Bool
  duration : Option Nat
  shuffle : Option Bool
  images : Option (List FsPath)
  timestamp : Option String
deriving DecidableEq

/-- The empty dict `{}` used when `load_session()` yields nothing (line 443). -/
def emptySession : Session :=
  ⟨none, none, none, none, none, none, none, none, none⟩

/-- The `KeyboardInterrupt` handler of `run_loop` (lines 440-448): reload the
persisted session (or `{}`), overwrite `images`, `duration`, `shuffle` and
`timestamp`, and write it back.  Note it stores the `images` parameter of
`run_loop`, not the (possibly shuffled) working pool. -/
def run_loop_on_interrupt (images : List FsPath) (duration : Nat)
    (shuffle : Bool) (prev : Option Session) (ts : String) : Session :=
  let sess := prev.getD emptySession
  { sess with
    images := some images
    duration := some duration
    shuffle := some shuffle
    timestamp := some ts }

/-! ## Runner loop (`run_loop`, lines 419-450) -/

/-- One observable effect of an iteration of `run_loop`. -/
inductive Event where
  | meta (e : MetadataEntry)
  | setWall (img : FsPath) (ok : Bool)
  | sleep (d : Nat)
deriving DecidableEq

/-- The effects of one iteration of the `for img in cycle(pool)` body
(lines 427-439), in program order: the `run` metadata entry is appended
first, then `set_wallpaper` is invoked (its outcome `ok` is recorded but not
acted upon — the loop continues either way), then `time.sleep(duration)`. -/
def runStepEvents (duration : Nat) (shuffle : Bool) (ts : String)
    (img : FsPath) (ok : Bool) (rc : Nat) : List Event :=
  [Event.meta (MetadataEntry.run ⟨ts, img, duration, shuffle, rc⟩),
   Event.setWall img ok,
   Event.sleep duration]

/-- The image `itertools.cycle(pool)` yields at 0-based step `i`. -/
def cycleGet (pool : List FsPath) (i : Nat) : FsPath :=
  pool.getD (i % pool.length) ""

/-- The event trace of the first `n` iterations of `run_loop`'s body over
working pool `pool`.  `run_count` starts at 0 and is incremented at the head
of each iteration, so step `i` (0-based) carries counter `i + 1`.  The
timestamp of step `i` is `tss i` and the setter outcome is `ok i`. -/
def run_loop_trace (pool : List FsPath) (duration : Nat) (shuffle : Bool)
    (tss : Nat → String) (ok : Nat → Bool) : Nat → List Event
  | 0 => []
  | n + 1 =>
    run_loop_trace pool duration shuffle tss ok n ++
      runStepEvents duration shuffle (tss n) (cycleGet pool n) (ok n) (n + 1)

/-- The arguments `set_wallpaper` was invoked with, in order. -/
def appliedImages (tr : List Event) : List FsPath :=
  tr.filterMap fun e =>
    match e with
    | Event.setWall img _ => some img
    | _ => none

/-- The `count` fields of the `run` metadata entries appended, in order. -/
def runCounters (tr : List Event) : List Nat :=
  tr.filterMap fun e =>
    match e with
    | Event.meta (MetadataEntry.run r) => some r.count
    | _ => none

/-- A run of `run_loop` stopped by `KeyboardInterrupt` after `steps` complete
iterations: its event trace and the session it writes on the way out. -/
structure LoopRun where
  events : List Event
  finalSession : Session

/-- `run_loop` (lines 419-448), interrupted after `steps` iterations:
`pool = list(images)` is a working copy, shuffled (to `shuffled`, an
arbitrary permutation chosen by `random.shuffle`) only when `shuffle` is
set; the `KeyboardInterrupt` handler writes back the original `images`
argument, not the pool. -/
def run_loop_interrupted (images : List FsPath) (duration : Nat)
    (shuffle : Bool) (shuffled : List FsPath) (tss : Nat → String)
    (ok : Nat → Bool) (steps : Nat) (prev : Option Session)
    (tsStop : String) : LoopRun :=
  let pool := if shuffle then shuffled else images
  ⟨run_loop_trace pool duration shuffle tss ok steps,
   run_loop_on_interrupt images duration shuffle prev tsStop⟩

theorem run_loop_trace_closed (pool : List FsPath) (duration : Nat)
    (shuffle : Bool) (tss : Nat → String) (ok : Nat → Bool) (n : Nat) :
    run_loop_trace pool duration shuffle tss ok n =
      (List.range n).flatMap
        (fun i => runStepEvents duration shuffle (tss i) (cycleGet pool i)
          (ok i) (i + 1)) := by
  induction n with
  | zero => rfl
  | succ n ih => simp [run_loop_trace, ih, List.range_succ]

theorem appliedImages_trace (pool : List FsPath) (duration : Nat)
    (shuffle : Bool) (tss : Nat → String) (ok : Nat → Bool) (n : Nat) :
    appliedImages (run_loop_trace pool duration shuffle tss ok n) =
      (List.range n).map (fun i => cycleGet pool i) := by
  induction n with
  | zero => rfl
  | succ n ih =>
    simp only [run_loop_trace, appliedImages, List.filterMap_append,
      List.range_succ, List.map_append]
    simp only [appliedImages] at ih
    rw [ih]
    rfl

theorem runCounters_trace (pool : List FsPath) (duration : Nat)
    (shuffle : Bool) (tss : Nat → String) (ok : Nat → Bool) (n : Nat) :
    runCounters (run_loop_trace pool duration shuffle tss ok n) =
      (List.range n).map (fun i => i + 1) := by
  induction n with
  | zero => rfl
  | succ n ih =>
    simp only [run_loop_trace, runCounters, List.filterMap_append,
      List.range_succ, List.map_append]
    simp only [runCounters] at ih
    rw [ih]
    rfl

/-- C1: for every non-empty image list, duration and `shuffle=False`, the
runner loop iterates the list cyclically; at 0-based step `i` it increments
the counter to `i + 1` and appends a `run` metadata entry (timestamp, image,
duration, shuffle flag, counter) before invoking the wallpaper setter (the
per-step event block `runStepEvents` lists the `meta` event first, then the
`setWall` invocation), and it continues for all `n` steps whatever the setter
outcomes `ok` are (it does not abort on setter failure).  In particular with
`images = [A, B]`, `duration = 0`, `shuffle = False`, after 5 steps the
applied order is `A, B, A, B, A` and exactly 5 `run` entries with counters
1..5 have been appended. -/
theorem runner_loop_cyclic_order (images : List FsPath) (h : images ≠ [])
    (duration : Nat) (tss : Nat → String) (ok : Nat → Bool) (n : Nat)
    (A B : FsPath) :
    run_loop_trace images duration false tss ok n =
        (List.range n).flatMap
          (fun i => runStepEvents duration false (tss i) (cycleGet images i)
            (ok i) (i + 1))
      ∧ appliedImages (run_loop_trace images duration false tss ok n) =
          (List.range n).map (fun i => cycleGet images i)
      ∧ runCounters (run_loop_trace images duration false tss ok n) =
          (List.range n).map (fun i => i + 1)
      ∧ appliedImages (run_loop_trace [A, B] 0 false tss ok 5) =
          [A, B, A, B, A]
      ∧ runCounters (run_loop_trace [A, B] 0 false tss ok 5) =
          [1, 2, 3, 4, 5] := by
  refine ⟨run_loop_trace_closed _ _ _ _ _ _, appliedImages_trace _ _ _ _ _ _,
    runCounters_trace _ _ _ _ _ _, ?_, ?_⟩
  · rw [appliedImages_trace]; simp [List.range_succ, cycleGet]
  · rw [runCounters_trace]; simp [List.range_succ]

theorem runner_loop_cyclic_order_witness :
    (["A", "B"] : List FsPath) ≠ []
      ∧ appliedImages
          (run_loop_trace ["A", "B"] 0 false (fun _ => "t") (fun _ => false) 5)
          = ["A", "B", "A", "B", "A"] :=
  ⟨by decide,
   (runner_loop_cyclic_order ["A", "B"] (by decide) 0 (fun _ => "t")
      (fun _ => false) 5 "A" "B").2.2.2.1⟩

/-- C2: when the runner loop is interrupted it rewrites the session store
with the image list, duration and shuffle flag that were active at
interruption time plus a fresh timestamp, preserves every other field of the
previously persisted session unchanged, and (being modelled as a total
function producing the written session) returns to its caller without
re-raising. -/
theorem interrupt_rewrites_session (images : List FsPath) (duration : Nat)
    (shuffle : Bool) (shuffled : List FsPath) (tss : Nat → String)
    (ok : Nat → Bool) (steps : Nat) (prev : Option Session)
    (tsStop : String) :
    (run_loop_interrupted images duration shuffle shuffled tss ok steps prev
        tsStop).finalSession.images = some images
      ∧ (run_loop_interrupted images duration shuffle shuffled tss ok steps
          prev tsStop).finalSession.duration = some duration
      ∧ (run_loop_interrupted images duration shuffle shuffled tss ok steps
          prev tsStop).finalSession.shuffle = some shuffle
      ∧ (run_loop_interrupted images duration shuffle shuffled tss ok steps
          prev tsStop).finalSession.timestamp = some tsStop
      ∧ (run_loop_interrupted images duration shuffle shuffled tss ok steps
          prev tsStop).finalSession.mode = (prev.getD emptySession).mode
      ∧ (run_loop_interrupted images duration shuffle shuffled tss ok steps
          prev tsStop).finalSession.local_added
          = (prev.getD emptySession).local_added
      ∧ (run_loop_interrupted images duration shuffle shuffled tss ok steps
          prev tsStop).finalSession.theme = (prev.getD emptySession).theme
      ∧ (run_loop_interrupted images duration shuffle shuffled tss ok steps
          prev tsStop).finalSession.online_count
          = (prev.getD emptySession).online_count
      ∧ (run_loop_interrupted images duration shuffle shuffled tss ok steps
          prev tsStop).finalSession.online_refresh
          = (prev.getD emptySession).online_refresh :=
  ⟨rfl, rfl, rfl, rfl, rfl, rfl, rfl, rfl, rfl⟩

/-- C8: the metadata store is append-only — every append rewrites the file to
the old array followed by the new entry — so that starting from `[]`, one
download event followed by one run event yields a file deserializing to an
array of exactly two objects whose `type` fields are `"download"` and
`"run"`, in append order. -/
theorem metadata_append_only (log : List MetadataEntry) (e : MetadataEntry)
    (d : DownloadEntry) (r : RunEntry) :
    append_metadata log e = log ++ [e]
      ∧ (append_metadata log e).length = log.length + 1
      ∧ (append_metadata (append_metadata [] (MetadataEntry.download d))
          (MetadataEntry.run r)).map MetadataEntry.type = ["download", "run"]
      ∧ (append_metadata (append_metadata [] (MetadataEntry.download d))
          (MetadataEntry.run r)).length = 2 :=
  ⟨rfl, by simp [append_metadata], rfl, rfl⟩

/-- C10: the runner loop never mutates its input image list — shuffling acts
on the working pool copy (`pool = list(images)`), the iteration order is the
shuffled pool, and the interruption checkpoint persists the original input
list `images` in its original order, independent of the permutation
`random.shuffle` produced. -/
theorem runner_loop_input_unchanged (images : List FsPath) (duration : Nat)
    (shuffled : List FsPath) (tss : Nat → String) (ok : Nat → Bool)
    (steps : Nat) (prev : Option Session) (tsStop : String)
    (hperm : shuffled.Perm images) :
    (run_loop_interrupted images duration true shuffled tss ok steps prev
        tsStop).finalSession.images = some images
      ∧ appliedImages (run_loop_interrupted images duration true shuffled tss
          ok steps prev tsStop).events
        = (List.range steps).map (fun i => cycleGet shuffled i) := by
  constructor
  · rfl
  · show appliedImages (run_loop_trace (if true then shuffled else images)
      duration true tss ok steps) = _
    rw [if_pos rfl, appliedImages_trace]

theorem runner_loop_input_unchanged_witness :
    (run_loop_interrupted ["A", "B"] 7 true ["B", "A"] (fun _ => "t")
        (fun _ => false) 3 none "z").finalSession.images = some ["A", "B"] :=
  (runner_loop_input_unchanged ["A", "B"] 7 ["B", "A"] (fun _ => "t")
    (fun _ => false) 3 none "z" (by decide)).1

/-! ## Local gather (`gather_images_from_session_folder`, lines 136-144) -/

/-- `gather_images_from_session_folder` (lines 136-144): list the entries of
the session-images directory, keep the regular files whose lowered suffix is
a recognized image extension, take their resolved paths and sort them. -/
def gather_images_from_session_folder (dir : List DirEntry) : List FsPath :=
  List.insertionSort (fun a b : String => a ≤ b)
    ((dir.filter fun e => e.isFile && IMG_EXTS.contains (strLower e.suffix)).map
      (fun e => e.path))

/-- C9: local gather returns exactly the paths of the regular files directly
inside the session-images directory whose (lowercased) extension is in the
recognized set, sorted by path; subdirectory entries are excluded (an entry
with `isFile = false` never contributes). -/
theorem gather_exactly_recognized_files (dir : List DirEntry) :
    (gather_images_from_session_folder dir).Sorted (fun a b : String => a ≤ b)
      ∧ (gather_images_from_session_folder dir).Perm
          ((dir.filter fun e =>
              e.isFile && IMG_EXTS.contains (strLower e.suffix)).map
            (fun e => e.path))
      ∧ ∀ s, s ∈ gather_images_from_session_folder dir ↔
          ∃ e, e ∈ dir ∧ e.isFile = true ∧ (strLower e.suffix) ∈ IMG_EXTS
            ∧ e.path = s := by
  refine ⟨List.sorted_insertionSort _ _, List.perm_insertionSort _ _,
    fun s => ?_⟩
  rw [gather_images_from_session_folder,
    (List.perm_insertionSort _ _).mem_iff]
  simp only [List.mem_map, List.mem_filter, Bool.and_eq_true, List.contains,
    List.elem_iff]
  constructor
  · rintro ⟨e, ⟨he, hf, hx⟩, hp⟩
    exact ⟨e, he, hf, hx, hp⟩
  · rintro ⟨e, he, hf, hx, hp⟩
    exact ⟨e, ⟨he, hf, hx⟩, hp⟩

/-! ## Online download (`download_online_images`, lines 147-190) -/

/-- "More recently modified than or as recent as": the descending-mtime
order used by the cache listing (`sorted(..., key=mtime, reverse=True)`). -/
def mtimeGe (a b : DirEntry) : Prop := b.mtime ≤ a.mtime

instance : DecidableRel mtimeGe := fun a b =>
  inferInstanceAs (Decidable (b.mtime ≤ a.mtime))

instance : IsTotal DirEntry mtimeGe :=
  ⟨fun a b => Nat.le_total b.mtime a.mtime⟩

instance : IsTrans DirEntry mtimeGe :=
  ⟨fun _ _ _ hab hbc => Nat.le_trans hbc hab⟩

/-- Theme resolution at the head of `download_online_images` (lines 157-159):
`(theme or "nature").lower()`, falling back to `"nature"` when the result is
not a key of `ONLINE_QUERIES`.  (An empty string is falsy in Python.) -/
def resolveTheme (theme : String) : String :=
  let t := strLower (if theme = "" then "nature" else theme)
  if ONLINE_THEMES.contains t then t else "nature"

/-- The cache listing of line 162: the directory entries matched by
`glob(f"\x7btheme\x7d_*")` whose lowered suffix is a recognized extension,
sorted by modification time, most recent first (Python's sort is stable, as
is `insertionSort`). -/
def cachedFor (dir : List DirEntry) (t : String) : List DirEntry :=
  List.insertionSort mtimeGe
    (dir.filter fun e =>
      strStartsWith e.name (t ++ "_") && IMG_EXTS.contains (strLower e.suffix))

/-- One observable effect of `download_online_images`. -/
inductive DlEvent where
  | fetch (url : String)
  | writeFile (p : FsPath)
  | meta (e : MetadataEntry)
  | sleep
  | logError (i : Nat)
deriving DecidableEq

/-- Result of `download_online_images`: its event trace and returned paths. -/
structure DlState where
  events : List DlEvent
  result : List FsPath
deriving DecidableEq

/-- The events of download attempt `i` (the body of the `for i in
range(count)` loop, lines 167-189).  On success (`ok i`): the HTTP fetch, the
file write, the `download` metadata append, then `time.sleep(0.2)`.  On
failure, the exception raised during the attempt (modelled as raised by the
fetch) skips the rest of the `try` block — including the sleep — and is
caught and logged by the per-attempt `except` clause. -/
def dlAttemptEvents (t : String) (urlOf fnameOf : Nat → String)
    (ok : Nat → Bool) (tsOf : Nat → String) (i : Nat) : List DlEvent :=
  if ok i then
    [DlEvent.fetch (urlOf i), DlEvent.writeFile (fnameOf i),
     DlEvent.meta (MetadataEntry.download ⟨t, fnameOf i, urlOf i, tsOf i⟩),
     DlEvent.sleep]
  else
    [DlEvent.fetch (urlOf i), DlEvent.logError i]

/-- The download loop (lines 166-190) after the first `n` of the attempts:
the `downloaded` accumulator gains `fnameOf i` exactly when attempt `i`
succeeded.  `urlOf`, `fnameOf` and `tsOf` are oracles for the random
signature URL, the unique destination filename and `now_iso()`. -/
def dlLoopAux (t : String) (urlOf fnameOf : Nat → String) (ok : Nat → Bool)
    (tsOf : Nat → String) : Nat → DlState
  | 0 => ⟨[], []⟩
  | n + 1 =>
    let s := dlLoopAux t urlOf fnameOf ok tsOf n
    ⟨s.events ++ dlAttemptEvents t urlOf fnameOf ok tsOf n,
     s.result ++ if ok n then [fnameOf n] else []⟩

/-- `download_online_images` (lines 147-190).  Returns `[]` at once if the
`requests` library is unavailable; otherwise resolves the theme, and if
cached theme-prefixed files exist and refresh is not forced returns the
first `count` of them (most recently modified first) with no further
effects; otherwise runs the download loop for `count` attempts. -/
def download_online_images (requestsAvailable : Bool) (dir : List DirEntry)
    (theme : String) (count : Nat) (force_refresh : Bool)
    (urlOf fnameOf : Nat → String) (ok : Nat → Bool) (tsOf : Nat → String) :
    DlState :=
  if !requestsAvailable then ⟨[], []⟩
  else
    let t := resolveTheme theme
    let cached := cachedFor dir t
    if !cached.isEmpty && !force_refresh then
      ⟨[], (cached.take count).map (fun e => e.path)⟩
    else
      dlLoopAux t urlOf fnameOf ok tsOf count

/-- Is the event an HTTP fetch (one attempt's `requests.get`)? -/
def DlEvent.isFetch : DlEvent → Bool
  | .fetch _ => true
  | _ => false

/-- Is the event the polite pause `time.sleep(0.2)`? -/
def DlEvent.isSleep : DlEvent → Bool
  | .sleep => true
  | _ => false

/-- Is the event the logging of a failed attempt (line 189)? -/
def DlEvent.isLogError : DlEvent → Bool
  | .logError _ => true
  | _ => false

/-- C3: with `requests` available, `force_refresh = False` and a non-empty
cache of theme-prefixed recognized-extension files (the directory holding
regular files only), online download returns exactly `min(N, count)` paths —
the first `count` of the cache listing, which is ordered most recently
modified first — and performs no network request (its event trace is empty,
so in particular no fetch occurs). -/
theorem download_cache_hit (dir : List DirEntry) (theme : String)
    (count : Nat) (urlOf fnameOf : Nat → String) (ok : Nat → Bool)
    (tsOf : Nat → String) (hfiles : dir.all (fun e => e.isFile) = true)
    (hcache : cachedFor dir (resolveTheme theme) ≠ []) :
    download_online_images true dir theme count false urlOf fnameOf ok tsOf
        = ⟨[], ((cachedFor dir (resolveTheme theme)).take count).map
            (fun e => e.path)⟩
      ∧ (download_online_images true dir theme count false urlOf fnameOf ok
          tsOf).result.length
        = min (cachedFor dir (resolveTheme theme)).length count
      ∧ (download_online_images true dir theme count false urlOf fnameOf ok
          tsOf).events = []
      ∧ ((cachedFor dir (resolveTheme theme)).take count).Pairwise mtimeGe :=
  by
  have hempty : (cachedFor dir (resolveTheme theme)).isEmpty = false := by
    simp [List.isEmpty_iff, hcache]
  have hval : download_online_images true dir theme count false urlOf fnameOf
      ok tsOf
      = ⟨[], ((cachedFor dir (resolveTheme theme)).take count).map
          (fun e => e.path)⟩ := by
    simp [download_online_images, hempty]
  refine ⟨hval, ?_, ?_, ?_⟩
  · rw [hval]
    simp [List.length_take, Nat.min_comm]
  · rw [hval]
  · exact List.Pairwise.sublist (List.take_sublist _ _)
      (List.sorted_insertionSort mtimeGe _)

theorem download_cache_hit_witness :
    ([⟨"nature_a.jpg", "/s/nature_a.jpg", ".jpg", 5, true⟩,
      ⟨"nature_b.jpg", "/s/nature_b.jpg", ".jpg", 9, true⟩] :
        List DirEntry).all (fun e => e.isFile) = true
      ∧ cachedFor
          [⟨"nature_a.jpg", "/s/nature_a.jpg", ".jpg", 5, true⟩,
           ⟨"nature_b.jpg", "/s/nature_b.jpg", ".jpg", 9, true⟩]
          (resolveTheme "nature") ≠ []
      ∧ (download_online_images true
          [⟨"nature_a.jpg", "/s/nature_a.jpg", ".jpg", 5, true⟩,
           ⟨"nature_b.jpg", "/s/nature_b.jpg", ".jpg", 9, true⟩]
          "nature" 1 false (fun _ => "u") (fun _ => "f") (fun _ => true)
          (fun _ => "t")).result = ["/s/nature_b.jpg"] :=
  ⟨by decide, by decide, by
    rw [(download_cache_hit
      [⟨"nature_a.jpg", "/s/nature_a.jpg", ".jpg", 5, true⟩,
       ⟨"nature_b.jpg", "/s/nature_b.jpg", ".jpg", 9, true⟩]
      "nature" 1 (fun _ => "u") (fun _ => "f") (fun _ => true)
      (fun _ => "t") (by decide) (by decide)).1]
    decide⟩

/-- C6 counterexample: the claim that a short pause follows each attempt
regardless of outcome is false — `time.sleep(0.2)` sits inside the `try`
block after the fetch/write/metadata steps (line 187), so a failed attempt
skips it.  With one attempt that fails, the trace is fetch-then-log with no
sleep: the number of sleeps does not equal the number of attempts. -/
theorem download_pause_counterexample :
    (download_online_images true [] "nature" 1 true (fun _ => "u")
        (fun _ => "f") (fun _ => false) (fun _ => "t")).events
        = [DlEvent.fetch "u", DlEvent.logError 0]
      ∧ ¬ ((download_online_images true [] "nature" 1 true (fun _ => "u")
            (fun _ => "f") (fun _ => false) (fun _ => "t")).events.countP
            DlEvent.isSleep
          = (download_online_images true [] "nature" 1 true (fun _ => "u")
            (fun _ => "f") (fun _ => false) (fun _ => "t")).events.countP
            DlEvent.isFetch) :=
  ⟨by decide, by decide⟩

/-- C6 (amended): during the download loop every one of the `count` attempts
performs a fetch; a short pause follows each SUCCESSFUL attempt (failed
attempts skip the pause); each attempt's failure is caught and logged
individually while the loop continues to the next attempt; and the loop
returns exactly the filenames of the attempts that succeeded, in order. -/
theorem download_attempt_politeness (t : String)
    (urlOf fnameOf : Nat → String) (ok : Nat → Bool) (tsOf : Nat → String)
    (n : Nat) :
    (dlLoopAux t urlOf fnameOf ok tsOf n).events
        = (List.range n).flatMap (dlAttemptEvents t urlOf fnameOf ok tsOf)
      ∧ (dlLoopAux t urlOf fnameOf ok tsOf n).result
        = ((List.range n).filter ok).map fnameOf
      ∧ (dlLoopAux t urlOf fnameOf ok tsOf n).events.countP DlEvent.isFetch
        = n
      ∧ (dlLoopAux t urlOf fnameOf ok tsOf n).events.countP DlEvent.isSleep
        = ((List.range n).filter ok).length
      ∧ (dlLoopAux t urlOf fnameOf ok tsOf n).events.countP
          DlEvent.isLogError
        = ((List.range n).filter (fun i => !ok i)).length := by
  induction n with
  | zero => exact ⟨rfl, rfl, rfl, rfl, rfl⟩
  | succ n ih =>
    obtain ⟨ihe, ihr, ihf, ihs, ihl⟩ := ih
    refine ⟨?_, ?_, ?_, ?_, ?_⟩
    · simp [dlLoopAux, ihe, List.range_succ]
    · cases hok : ok n <;>
        simp [dlLoopAux, ihr, List.range_succ, List.filter_append, hok]
    · cases hok : ok n <;>
        simp [dlLoopAux, List.countP_append, ihf, dlAttemptEvents, hok,
          DlEvent.isFetch]
    · cases hok : ok n <;>
        simp [dlLoopAux, List.countP_append, ihs, dlAttemptEvents, hok,
          DlEvent.isSleep, List.range_succ, List.filter_append]
    · cases hok : ok n <;>
        simp [dlLoopAux, List.countP_append, ihl, dlAttemptEvents, hok,
          DlEvent.isLogError, List.range_succ, List.filter_append]

/-! ## Dual-mode merge (`main`, lines 372-382) -/

/-- The dedup traversal of `main`'s dual branch (lines 376-381): walk the
concatenated list with an accumulating `seen` set (modelled as the list of
already-appended paths); append `p` to the output exactly when `p not in
seen and Path(p).exists()`, in which case `p` is also added to `seen`. -/
def mergeDedup (ex : FsPath → Bool) :
    List FsPath → List FsPath → List FsPath
  | _, [] => []
  | seen, p :: rest =>
    if !seen.contains p && ex p then p :: mergeDedup ex (p :: seen) rest
    else mergeDedup ex seen rest

/-- Lines 372-382: `images = gather(...); images.extend(online_imgs)`, then
the duplicate-removing, existence-checking traversal building `final`. -/
def dual_merge (localImgs onlineImgs : List FsPath) (ex : FsPath → Bool) :
    List FsPath :=
  mergeDedup ex [] (localImgs ++ onlineImgs)

/-- Index of the first occurrence of `p` in `l` (length of `l` if absent). -/
def firstIdx (l : List FsPath) (p : FsPath) : Nat :=
  match l with
  | [] => 0
  | q :: rest => if q = p then 0 else firstIdx rest p + 1

theorem pathMem_contains (s : List FsPath) (x : FsPath) :
    s.contains x = true ↔ x ∈ s := by
  simp [List.contains, List.elem_iff]

theorem mergeDedup_mem (ex : FsPath → Bool) (l : List FsPath) :
    ∀ (seen : List FsPath) (q : FsPath),
      q ∈ mergeDedup ex seen l ↔ q ∈ l ∧ ex q = true ∧ q ∉ seen := by
  induction l with
  | nil => intro seen q; simp [mergeDedup]
  | cons p rest ih =>
    intro seen q
    by_cases hc : (!seen.contains p && ex p) = true
    · have hc' : seen.contains p = false ∧ ex p = true := by
        simpa [Bool.and_eq_true, Bool.not_eq_true'] using hc
      have hp : p ∉ seen := by
        intro hm
        have hm' := (pathMem_contains seen p).mpr hm
        rw [hc'.1] at hm'
        simp at hm'
      rw [mergeDedup, if_pos hc]
      constructor
      · intro hq
        rcases List.mem_cons.mp hq with rfl | hq2
        · exact ⟨List.mem_cons_self _ _, hc'.2, hp⟩
        · obtain ⟨h1, h2, h3⟩ := (ih (p :: seen) q).mp hq2
          exact ⟨List.mem_cons_of_mem _ h1, h2,
            fun hs => h3 (List.mem_cons_of_mem _ hs)⟩
      · rintro ⟨hq, hex, hns⟩
        by_cases hqp : q = p
        · exact hqp ▸ List.mem_cons_self _ _
        · rcases List.mem_cons.mp hq with rfl | hq2
          · exact absurd rfl hqp
          · refine List.mem_cons_of_mem _ ((ih (p :: seen) q).mpr
              ⟨hq2, hex, fun hm => ?_⟩)
            rcases List.mem_cons.mp hm with rfl | hm2
            · exact hqp rfl
            · exact hns hm2
    · have hcases : p ∈ seen ∨ ex p = false := by
        cases hs : seen.contains p with
        | true => exact Or.inl ((pathMem_contains seen p).mp hs)
        | false =>
          cases he : ex p with
          | false => exact Or.inr rfl
          | true =>
            exact absurd (show (!seen.contains p && ex p) = true by
              rw [hs, he]; rfl) hc
      rw [mergeDedup, if_neg hc, ih seen q]
      constructor
      · rintro ⟨h1, h2, h3⟩
        exact ⟨List.mem_cons_of_mem _ h1, h2, h3⟩
      · rintro ⟨hq, hex, hns⟩
        rcases List.mem_cons.mp hq with rfl | hq2
        · rcases hcases with hs | hf
          · exact absurd hs hns
          · rw [hex] at hf; simp at hf
        · exact ⟨hq2, hex, hns⟩

theorem mergeDedup_sublist (ex : FsPath → Bool) (l : List FsPath) :
    ∀ seen : List FsPath, (mergeDedup ex seen l).Sublist l := by
  induction l with
  | nil => intro seen; exact List.Sublist.refl _
  | cons p rest ih =>
    intro seen
    by_cases hc : (!seen.contains p && ex p) = true
    · rw [mergeDedup, if_pos hc]
      exact (ih (p :: seen)).cons₂ p
    · rw [mergeDedup, if_neg hc]
      exact (ih seen).cons p

theorem mergeDedup_nodup (ex : FsPath → Bool) (l : List FsPath) :
    ∀ seen : List FsPath, (mergeDedup ex seen l).Nodup := by
  induction l with
  | nil => intro seen; exact List.nodup_nil
  | cons p rest ih =>
    intro seen
    by_cases hc : (!seen.contains p && ex p) = true
    · rw [mergeDedup, if_pos hc, List.nodup_cons]
      refine ⟨fun hm => ?_, ih (p :: seen)⟩
      exact ((mergeDedup_mem ex rest (p :: seen) p).mp hm).2.2
        (List.mem_cons_self _ _)
    · rw [mergeDedup, if_neg hc]
      exact ih seen

theorem firstIdx_cons_eq (p : FsPath) (l : List FsPath) :
    firstIdx (p :: l) p = 0 := by
  simp [firstIdx]

theorem firstIdx_cons_ne (q p : FsPath) (l : List FsPath) (h : q ≠ p) :
    firstIdx (q :: l) p = firstIdx l p + 1 := by
  simp [firstIdx, h]

theorem mergeDedup_firstIdx (ex : FsPath → Bool) (l : List FsPath) :
    ∀ seen : List FsPath,
      (mergeDedup ex seen l).Pairwise
        (fun a b => firstIdx l a < firstIdx l b) := by
  induction l with
  | nil => intro seen; exact List.Pairwise.nil
  | cons p rest ih =>
    intro seen
    by_cases hc : (!seen.contains p && ex p) = true
    · rw [mergeDedup, if_pos hc, List.pairwise_cons]
      constructor
      · intro b hb
        have hbp : b ≠ p := fun h => (((mergeDedup_mem ex rest (p :: seen)
          b).mp hb).2.2) (h ▸ List.mem_cons_self p seen)
        rw [firstIdx_cons_eq, firstIdx_cons_ne p b rest (fun h => hbp h.symm)]
        exact Nat.succ_pos _
      · refine List.Pairwise.imp_of_mem ?_ (ih (p :: seen))
        intro a b ha hb hab
        have hap : a ≠ p := fun h => (((mergeDedup_mem ex rest (p :: seen)
          a).mp ha).2.2) (h ▸ List.mem_cons_self p seen)
        have hbp : b ≠ p := fun h => (((mergeDedup_mem ex rest (p :: seen)
          b).mp hb).2.2) (h ▸ List.mem_cons_self p seen)
        rw [firstIdx_cons_ne p a rest (fun h => hap h.symm),
          firstIdx_cons_ne p b rest (fun h => hbp h.symm)]
        exact Nat.succ_lt_succ hab
    · have hcases : p ∈ seen ∨ ex p = false := by
        cases hs : seen.contains p with
        | true => exact Or.inl ((pathMem_contains seen p).mp hs)
        | false =>
          cases he : ex p with
          | false => exact Or.inr rfl
          | true =>
            exact absurd (show (!seen.contains p && ex p) = true by
              rw [hs, he]; rfl) hc
      rw [mergeDedup, if_neg hc]
      refine List.Pairwise.imp_of_mem ?_ (ih seen)
      intro a b ha hb hab
      have hanp : ∀ c, c ∈ mergeDedup ex seen rest → c ≠ p := by
        intro c hcm hcp
        obtain ⟨_, h2, h3⟩ := (mergeDedup_mem ex rest seen c).mp hcm
        rcases hcases with hs | hf
        · exact h3 (by rw [hcp]; exact hs)
        · rw [hcp] at h2; rw [h2] at hf; simp at hf
      rw [firstIdx_cons_ne p a rest (fun h => (hanp a ha) h.symm),
        firstIdx_cons_ne p b rest (fun h => (hanp b hb) h.symm)]
      exact Nat.succ_lt_succ hab

/-- C4: for every pair of (local-gather, online-download) result lists, the
dual-mode merge of their concatenation contains no duplicate paths, keeps
only (and all of) the paths that exist at merge time, is a sublist of the
concatenation, and lists its elements in order of their first occurrence in
the concatenation (`firstIdx` is strictly increasing along it). -/
theorem dual_merge_dedup (localImgs onlineImgs : List FsPath)
    (ex : FsPath → Bool) :
    (dual_merge localImgs onlineImgs ex).Nodup
      ∧ (∀ p, p ∈ dual_merge localImgs onlineImgs ex ↔
          p ∈ localImgs ++ onlineImgs ∧ ex p = true)
      ∧ (dual_merge localImgs onlineImgs ex).Sublist
          (localImgs ++ onlineImgs)
      ∧ (dual_merge localImgs onlineImgs ex).Pairwise
          (fun a b => firstIdx (localImgs ++ onlineImgs) a
            < firstIdx (localImgs ++ onlineImgs) b) := by
  refine ⟨mergeDedup_nodup ex _ [], fun p => ?_, mergeDedup_sublist ex _ [],
    mergeDedup_firstIdx ex _ []⟩
  rw [dual_merge, mergeDedup_mem ex _ [] p]
  simp

/-! ## Wallpaper setter (`set_wallpaper`, lines 193-241) -/

/-- The value of `platform.system()`. -/
inductive OSKind where
  | windows
  | darwin
  | linux
  | other (name : String)

/-- The environment `set_wallpaper` dispatches into.  Each OS call is an
oracle: `Except.error` models the call raising an exception, `Except.ok`
its normal return (a boolean for the Windows API, an exit code for the
subprocess/`os.system` calls; `os.system` itself does not raise, so the
Darwin oracle is total). -/
structure SetterEnv where
  os : OSKind
  pathExists : FsPath → Bool
  windowsCall : FsPath → Except String Bool
  darwinOsSystem : FsPath → Int
  gsettingsCall : FsPath → Except String Int
  qdbusCall : FsPath → Except String Int
  fehCall : FsPath → Except String Int

/-- The Linux branch (lines 211-235): try `gsettings`, then the
`qdbus-qt5` Plasma script, then `feh`; each of the first two falls through
both on a nonzero exit code and on an exception (the per-mechanism
`try/except: pass`); the `feh` branch returns `res == 0` from inside its
`try`, and only an exception there reaches the final logged failure. -/
def setWallpaperLinux (env : SetterEnv) (p : FsPath) : Bool :=
  match env.gsettingsCall p with
  | .ok 0 => true
  | _ =>
    match env.qdbusCall p with
    | .ok 0 => true
    | _ =>
      match env.fehCall p with
      | .ok r => r == 0
      | .error _ => false

/-- The body of the outer `try` of `set_wallpaper` (lines 203-238): the OS
dispatch.  An `Except.error` outcome models an exception escaping the
dispatch (e.g. the `ctypes` call raising); the Linux and unknown-OS branches
cannot raise past their own handlers. -/
def dispatchBody (env : SetterEnv) (p : FsPath) : Except String Bool :=
  match env.os with
  | .windows => env.windowsCall p
  | .darwin => .ok (env.darwinOsSystem p == 0)
  | .linux => .ok (setWallpaperLinux env p)
  | .other _ => .ok false

/-- `set_wallpaper` (lines 193-241): missing path → log and `False`;
otherwise run the dispatch, converting an escaping exception to a logged
`False` (the outer `except` clause, lines 239-241). -/
def set_wallpaper (env : SetterEnv) (p : FsPath) : Bool :=
  if env.pathExists p = false then false
  else
    match dispatchBody env p with
    | .ok b => b
    | .error _ => false

/-- `set_wallpaper` with exceptions kept explicit: the result is
`Except.error` exactly if an exception would propagate to the caller.  The
existence check is outside the `try` but consists of non-raising calls;
everything else is wrapped by the outer handler. -/
def set_wallpaperE (env : SetterEnv) (p : FsPath) : Except String Bool :=
  if env.pathExists p = false then .ok false
  else
    match dispatchBody env p with
    | .ok b => .ok b
    | .error _ => .ok false

/-- C5: for every environment and input path the wallpaper setter never
propagates an exception (the explicit-exception embedding always returns
`Except.ok`, agreeing with the total function); given a nonexistent path it
returns `False`; and an exception arising during OS dispatch is caught and
converted to a `False` return. -/
theorem set_wallpaper_never_raises (env : SetterEnv) (p : FsPath) :
    set_wallpaperE env p = Except.ok (set_wallpaper env p)
      ∧ (env.pathExists p = false → set_wallpaper env p = false)
      ∧ (∀ msg, dispatchBody env p = Except.error msg →
          set_wallpaper env p = false) := by
  refine ⟨?_, ?_, ?_⟩
  · rw [set_wallpaperE, set_wallpaper]
    by_cases hex : env.pathExists p = false
    · rw [if_pos hex, if_pos hex]
    · rw [if_neg hex, if_neg hex]
      cases dispatchBody env p <;> rfl
  · intro hex
    rw [set_wallpaper, if_pos hex]
  · intro msg herr
    rw [set_wallpaper]
    by_cases hex : env.pathExists p = false
    · rw [if_pos hex]
    · rw [if_neg hex, herr]

theorem set_wallpaper_never_raises_witness :
    set_wallpaperE
        ⟨OSKind.windows, fun _ => true, fun _ => Except.error "ctypes",
         fun _ => 0, fun _ => Except.ok 0, fun _ => Except.ok 0,
         fun _ => Except.ok 0⟩ "/img.jpg"
      = Except.ok false :=
  by
  rw [(set_wallpaper_never_raises
    ⟨OSKind.windows, fun _ => true, fun _ => Except.error "ctypes",
     fun _ => 0, fun _ => Except.ok 0, fun _ => Except.ok 0,
     fun _ => Except.ok 0⟩ "/img.jpg").1,
    (set_wallpaper_never_raises
    ⟨OSKind.windows, fun _ => true, fun _ => Except.error "ctypes",
     fun _ => 0, fun _ => Except.ok 0, fun _ => Except.ok 0,
     fun _ => Except.ok 0⟩ "/img.jpg").2.2 "ctypes" rfl]

/-! ## Resume (`main`, choice "4", lines 282-307) -/

/-- `cfg.get("mode") in ("online", "dual")` (line 296). -/
def mode_in_online_dual (m : Option String) : Bool :=
  m == some "online" || m == some "dual"

/-- Result of the resume rebuild: the image list it settles on, the events
of any online download performed, and whether `download_online_images` was
invoked at all. -/
structure ResumeRebuild where
  images : List FsPath
  dlEvents : List DlEvent
  downloadInvoked : Bool
deriving DecidableEq

/-- The resume branch's image-list rebuild (lines 289-300): with a saved
session whose cached `images` list is empty, gather from the session-images
directory; only for saved mode `online`/`dual` (and only if `requests` is
available) extend with an online download using the saved preferences;
finally drop paths that no longer exist.  A non-empty cached list is used
as-is. -/
def resume_rebuild (cfg : Session) (dir : List DirEntry)
    (requestsAvailable : Bool) (ex : FsPath → Bool)
    (urlOf fnameOf : Nat → String) (ok : Nat → Bool) (tsOf : Nat → String) :
    ResumeRebuild :=
  let images0 := cfg.images.getD []
  if images0.isEmpty then
    let localImgs := gather_images_from_session_folder dir
    if mode_in_online_dual cfg.mode then
      if requestsAvailable then
        let st := download_online_images true dir (cfg.theme.getD "nature")
          (cfg.online_count.getD 5) (cfg.online_refresh.getD false)
          urlOf fnameOf ok tsOf
        ⟨(localImgs ++ st.result).filter ex, st.events, true⟩
      else ⟨localImgs.filter ex, [], false⟩
    else ⟨localImgs.filter ex, [], false⟩
  else ⟨images0, [], false⟩

/-- C7: for every saved session whose `images` list is empty and whose mode
is `local`, the resume rebuild produces its image list solely from the
session-images directory contents (local gather filtered by existence) and
performs no network call: the online downloader is not invoked and no
download event occurs. -/
theorem resume_local_no_network (cfg : Session) (dir : List DirEntry)
    (requestsAvailable : Bool) (ex : FsPath → Bool)
    (urlOf fnameOf : Nat → String) (ok : Nat → Bool) (tsOf : Nat → String)
    (himg : cfg.images.getD [] = []) (hmode : cfg.mode = some "local") :
    resume_rebuild cfg dir requestsAvailable ex urlOf fnameOf ok tsOf
      = ⟨(gather_images_from_session_folder dir).filter ex, [], false⟩ := by
  rw [resume_rebuild]
  rw [himg, hmode]
  rfl

theorem resume_local_no_network_witness :
    (⟨some "local", none, none, none, none, some 30, some true, some [],
        none⟩ : Session).images.getD [] = []
      ∧ (⟨some "local", none, none, none, none, some 30, some true, some [],
          none⟩ : Session).mode = some "local"
      ∧ resume_rebuild
          ⟨some "local", none, none, none, none, some 30, some true, some [],
            none⟩
          [⟨"a.jpg", "/s/a.jpg", ".jpg", 1, true⟩] true (fun _ => true)
          (fun _ => "u") (fun _ => "f") (fun _ => true) (fun _ => "t")
        = ⟨["/s/a.jpg"], [], false⟩ :=
  ⟨by decide, by decide, by
    rw [resume_local_no_network
      ⟨some "local", none, none, none, none, some 30, some true, some [],
        none⟩
      [⟨"a.jpg", "/s/a.jpg", ".jpg", 1, true⟩] true (fun _ => true)
      (fun _ => "u") (fun _ => "f") (fun _ => true) (fun _ => "t")
      (by decide) (by decide)]
    decide⟩

end WallpaperLooper
